import Mathlib

/-!
Shallow embedding of `ansibullbot/wrappers/historywrapper.py`
(`HistoryWrapper` and `ShippableHistory`).

Modelling conventions:

* A Python `datetime` is modelled by `TS`: `time` is the instant (naive
  wall-clock values are read as UTC, which is how both `pytz.utc.localize`
  and the surrounding code interpret them) and `aware` records whether
  `tzinfo` is set.  Comparisons between datetimes order by `time`.
* An event record (a Python dict whose keys vary by event kind) is the
  structure `Record`; a key that is absent, or present with value `None`,
  is `none`.  The one place where the code distinguishes key-absence from
  a `None` value is the label census in `label_is_waffling` (`'label' in x`);
  there the conflation is harmless because the census is only ever queried
  at string-valued labels, and a `None`-valued `label` key can contribute
  only to the `None` bucket, never to a string bucket.
* Event ids are ints for timeline events / comments / reactions / reviews
  and commit shas (strings) for commits, hence `EventId := Nat ⊕ String`.
* Python's stable `sorted(..., key=itemgetter('created_at'))` is modelled
  by `List.insertionSort` on the `created_at` instant; both are stable
  sorts by the same key, so they agree extensionally.
* `C.DEFAULT_BREAKPOINTS` is taken to be `False`, so the `epdb` branches
  reduce to their `raise Exception(...)` siblings; a raised exception is
  an `Except.error` carrying the exception message.
-/

/-- A Python datetime: an instant plus whether `tzinfo` is present. -/
structure TS where
  time : Int
  aware : Bool
deriving DecidableEq

/-- Ids are ints (events, comments, reactions, reviews) or shas (commits). -/
abbrev EventId := Sum Nat String

/-- The uniform history record built by `HistoryWrapper`.  Fields that a
given event kind does not set default to `none` (absent key). -/
structure Record where
  id : Option EventId := none
  event : String := ""
  actor : Option String := none
  created_at : TS := TS.mk 0 false
  body : Option String := none
  label : Option String := none
  content : Option String := none
  commit_id : Option String := none
  state : Option String := none
  run_id : Option String := none
  status_id : Option Nat := none
  sha : Option String := none
deriving DecidableEq

/-- Ordering used by every `sorted(self.history, key=itemgetter('created_at'))`
call: compare the `created_at` instants. -/
def recLE (a b : Record) : Prop := a.created_at.time ≤ b.created_at.time

instance : DecidableRel recLE := fun a b =>
  inferInstanceAs (Decidable (a.created_at.time ≤ b.created_at.time))

instance : IsTotal Record recLE := ⟨fun a b => Int.le_total a.created_at.time b.created_at.time⟩

instance : IsTrans Record recLE := ⟨fun _ _ _ hab hbc => Int.le_trans hab hbc⟩

/-- `sorted(history, key=itemgetter('created_at'))` — a stable sort by the
`created_at` instant. -/
def sortByCreated (l : List Record) : List Record := List.insertionSort recLE l

/-- One step of `fix_history_tz`: a record with a naive `created_at` gets
it localized to UTC (`pytz.utc.localize` keeps the instant, sets `tzinfo`). -/
def fix_record (r : Record) : Record :=
  if r.created_at.aware then r
  else { r with created_at := TS.mk r.created_at.time true }

/-- `HistoryWrapper.fix_history_tz`: localize every naive timestamp. -/
def fix_history_tz (h : List Record) : List Record := h.map fix_record

/-- The on-disk cache blob: `None` / unreadable, or the pickled
`{'updated_at': ..., 'history': ...}` dict. -/
inductive CacheState where
  | absent : CacheState
  | entry : TS → List Record → CacheState

/-- Whether `__init__` took the cached history verbatim or rebuilt it. -/
inductive BuildSource where
  | fromCache : BuildSource
  | rebuilt : BuildSource
deriving DecidableEq

/-- Outcome of the caching decision in `__init__`: which branch ran, the
history it produced (before exclusion / tz-fix / sort), and whether
`_dump_cache` was called. -/
structure InitResult where
  source : BuildSource
  history : List Record
  persisted : Bool
deriving DecidableEq

/-- The caching decision in `HistoryWrapper.__init__` (lines 76-94).
`fresh` stands for the result of `self.process()`. -/
def init_decision (usecache : Bool) (cache : CacheState) (issueUpdated : TS)
    (fresh : List Record) : InitResult :=
  if !usecache then InitResult.mk BuildSource.rebuilt fresh false
  else
    match cache with
    | CacheState.absent => InitResult.mk BuildSource.rebuilt fresh true
    | CacheState.entry t1 h =>
        if issueUpdated.time ≤ t1.time then InitResult.mk BuildSource.fromCache h false
        else InitResult.mk BuildSource.rebuilt fresh true

/-- `event['actor'] in exclude_users` — a `None` actor is in no list. -/
def actorIn : Option String → List String → Bool
  | some a, l => l.contains a
  | none, _ => false

/-- The `exclude_users` pass in `__init__`: remove every record whose actor
is in the exclusion list (run only when the list is non-empty). -/
def exclude_filter (h : List Record) (exclude : List String) : List Record :=
  if exclude.isEmpty then h
  else h.filter fun r => !(actorIn r.actor exclude)

/-- The tail of `__init__`: caching decision, then `exclude_users`
filtering, then `fix_history_tz`, then the final sort. -/
def construct_history (usecache : Bool) (cache : CacheState) (issueUpdated : TS)
    (fresh : List Record) (exclude : List String) : List Record :=
  sortByCreated (fix_history_tz
    (exclude_filter (init_decision usecache cache issueUpdated fresh).history exclude))

/-- A commit as consumed by `merge_commits`: sha, committer login when the
committer object has one, and the (naive) `commit.committer.date`. -/
structure RawCommit where
  sha : String
  committerLogin : Option String
  committerDate : Int
deriving DecidableEq


/-- The record appended per commit: `pytz.utc.localize` makes the
timestamp aware; the actor is the committer login (a commit whose
committer object has no login stores the raw committer, modelled `none`). -/
def commit_record (c : RawCommit) : Record :=
  { id := some (Sum.inr c.sha), actor := c.committerLogin,
    created_at := TS.mk c.committerDate true, event := "committed" }

/-- `HistoryWrapper.merge_commits`: append one record per commit, then
`fix_history_tz`, then sort. -/
def merge_commits (h : List Record) (commits : List RawCommit) : List Record :=
  sortByCreated (fix_history_tz (h ++ commits.map commit_record))

/-- `HistoryWrapper.merge_history`: concatenate another issue's history
and re-sort.  Note: no `fix_history_tz` here. -/
def merge_history (h oldhistory : List Record) : List Record :=
  sortByCreated (h ++ oldhistory)

/-- A review dict as consumed by `merge_reviews`.  `submitted_at` is the
raw text timestamp; `parse_timestamp` (PyGithub's parser) yields a naive
datetime, so the parsed value is `TS.mk submittedAt false`. -/
structure RawReview where
  id : Nat
  userLogin : String
  submittedAt : Int
  commit_id : String
  state : String
deriving DecidableEq

/-- The review-state → event-kind mapping inside `merge_reviews`; an
unrecognized state raises `Exception('unknown review state')`. -/
def reviewEventKind (s : String) : Except String String :=
  if s = "COMMENTED" then Except.ok "review_comment"
  else if s = "CHANGES_REQUESTED" then Except.ok "review_changes_requested"
  else if s = "APPROVED" then Except.ok "review_approved"
  else if s = "DISMISSED" then Except.ok "review_dismissed"
  else Except.error "unknown review state"

/-- The record appended per review (given its resolved event kind). -/
def review_record (rv : RawReview) (kind : String) : Record :=
  { id := some (Sum.inl rv.id), actor := some rv.userLogin,
    created_at := TS.mk rv.submittedAt false,
    commit_id := some rv.commit_id, event := kind }

/-- The append loop of `merge_reviews`; stops with the exception on the
first unrecognized state. -/
def merge_reviews_go (acc : List Record) : List RawReview → Except String (List Record)
  | [] => Except.ok acc
  | rv :: rest =>
      match reviewEventKind rv.state with
      | Except.ok kind => merge_reviews_go (acc ++ [review_record rv kind]) rest
      | Except.error e => Except.error e

/-- `HistoryWrapper.merge_reviews`: append one record per review (fatal on
an unknown state), then `fix_history_tz`, then sort. -/
def merge_reviews (h : List Record) (reviews : List RawReview) :
    Except String (List Record) :=
  match merge_reviews_go h reviews with
  | Except.ok hist => Except.ok (sortByCreated (fix_history_tz hist))
  | Except.error e => Except.error e

/-- A raw issue-timeline event as consumed by `process` (only the fields
the code reads: id, actor login when the actor object has one, kind,
timestamp, the raw-data label name, and the commit id). -/
structure RawEvent where
  id : Nat
  actorLogin : Option String
  event : String
  created_at : TS
  labelName : Option String
  commit_id : Option String
deriving DecidableEq

/-- A raw issue comment as consumed by `process`. -/
structure RawComment where
  id : Nat
  userLogin : String
  created_at : TS
  body : String
deriving DecidableEq

/-- A raw reaction as consumed by `process`; `wellFormed` models the
`isinstance(reaction, dict)` guard, and `created_at` is the timestamp
after the string-to-datetime conversion the loop performs. -/
structure RawReaction where
  wellFormed : Bool
  id : Nat
  userLogin : String
  created_at : TS
  content : String
deriving DecidableEq

/-- `HistoryWrapper.get_event_from_cache`: first cached record whose
`id` equals the given event id, if any. -/
def get_event_from_cache (eventid : EventId) (cache : CacheState) : Option Record :=
  match cache with
  | CacheState.absent => none
  | CacheState.entry _ h => (h.filter fun x => x.id == some eventid).head?

/-- The fresh normalization of a timeline event in `process` (the branch
taken when the id is not found in the cache). -/
def normalize_event (e : RawEvent) : Record :=
  { id := some (Sum.inl e.id), actor := e.actorLogin, event := e.event,
    created_at := e.created_at,
    label := if e.event = "labeled" ∨ e.event = "unlabeled" then e.labelName else none,
    commit_id := if e.event = "referenced" then e.commit_id else none }

/-- The per-event step of `process`: reuse the cached record when the id
is found, otherwise normalize fresh. -/
def processed_event (cache : CacheState) (e : RawEvent) : Record :=
  match get_event_from_cache (Sum.inl e.id) cache with
  | some cdict => cdict
  | none => normalize_event e

/-- The comment normalization in `process` (always fresh, never cached). -/
def normalize_comment (c : RawComment) : Record :=
  { id := some (Sum.inl c.id), event := "commented", actor := some c.userLogin,
    created_at := c.created_at, body := some c.body }

/-- The reaction normalization in `process` (always fresh); a payload that
is not a dict is skipped. -/
def normalize_reaction (r : RawReaction) : Option Record :=
  if r.wellFormed then
    some { id := some (Sum.inl r.id), event := "reacted", created_at := r.created_at,
           actor := some r.userLogin, content := some r.content }
  else none

/-- `HistoryWrapper.process`: normalize timeline events (with id-based
cache reuse), then comments, then reactions, concatenate and sort. -/
def process (cache : CacheState) (events : List RawEvent)
    (comments : List RawComment) (reactions : List RawReaction) : List Record :=
  sortByCreated
    (events.map (processed_event cache)
      ++ comments.map normalize_comment
      ++ reactions.filterMap normalize_reaction)

/-- Python list / `isPre pat l` decides whether `pat` is an initial
segment of `l` (the model of `str.startswith`). -/
def isPre : List Char → List Char → Bool
  | [], _ => true
  | _ :: _, [] => false
  | a :: as, b :: bs => a == b && isPre as bs

/-- `containsSub pat l` decides whether `pat` occurs as a contiguous
sublist of `l` (the model of Python's `pat in l` on strings). -/
def containsSub (pat : List Char) : List Char → Bool
  | [] => pat.isEmpty
  | c :: t => isPre pat (c :: t) || containsSub pat t

/-- Python `pat in s` on strings. -/
def containsStr (s pat : String) : Bool := containsSub pat.data s.data

/-- Python `s.startswith(pat)`. -/
def strStarts (s pat : String) : Bool := isPre pat.data s.data

/-- `HistoryWrapper._find_events_by_actor` (string actor): records whose
kind matches (`eventname = none` matches any kind) and whose actor equals
the given login, truncated to `maxcount`. -/
def find_events_by_actor (h : List Record) (eventname : Option String)
    (actor : String) (maxcount : Nat) : List Record :=
  (h.filter fun e =>
    (match eventname with
     | some n => e.event == n
     | none => true) && e.actor == some actor).take maxcount

/-- The per-record step of the `get_commands` loop (with the default
`timestamps=False`): commands contributed by one record. -/
def get_commands_step (keys : List String) (uselabels : Bool)
    (botnames : List String) (e : Record) : List String :=
  if actorIn e.actor botnames then []
  else if e.event == "commented" then
    keys.filterMap fun y =>
      if strStarts (e.body.getD "") "_From @" then none
      else if containsStr (e.body.getD "") y
          && !(containsStr (e.body.getD "") ("!" ++ y)) then some y
      else none
  else if e.event == "labeled" && uselabels then
    match e.label with
    | some l => if keys.contains l then [l] else []
    | none => []
  else if e.event == "unlabeled" && uselabels then
    match e.label with
    | some l => if keys.contains l then ["!" ++ l] else []
    | none => []
  else []

/-- `HistoryWrapper.get_commands` (with the default `timestamps=False`):
gather the actor's comments, label and unlabel events, sort them, and
extract command tokens record by record. -/
def get_commands (h : List Record) (username : String) (command_keys : List String)
    (uselabels : Bool) (botnames : List String) : List String :=
  let comments := find_events_by_actor h (some "commented") username 999
  let labels := find_events_by_actor h (some "labeled") username 999
  let unlabels := find_events_by_actor h (some "unlabeled") username 999
  let events := sortByCreated (comments ++ labels ++ unlabels)
  events.foldl (fun acc e => acc ++ get_commands_step command_keys uselabels botnames e) []

/-- The label values of the records that carry a `label` key
(`[x['label'] for x in self.history if 'label' in x]`, string values). -/
def labelsOf (h : List Record) : List String := h.filterMap fun r => r.label

/-- Number of label/unlabel transitions of a given label across the
history (`len([x for x in history if x == hl])`). -/
def countLabel (h : List Record) (l : String) : Nat :=
  ((labelsOf h).filter fun x => x == l).length

/-- The `_waffled_labels` census built on the first `label_is_waffling`
call: one count per distinct label value (Python builds a dict; an
association list with distinct keys models it, the iteration order of
`sorted(set(...))` being irrelevant to lookups). -/
def waffleCounts (h : List Record) : List (String × Nat) :=
  (labelsOf h).dedup.map fun hl => (hl, countLabel h hl)

/-- The mutable state of a `HistoryWrapper` that the waffle detector and
the merge operations touch: the history list and the `_waffled_labels`
memo (`None` until the first `label_is_waffling` call). -/
structure WState where
  history : List Record
  waffled : Option (List (String × Nat))
deriving DecidableEq

/-- `HistoryWrapper.label_is_waffling`: build the census on first call
(memoized thereafter), answer `count >= limit` via `dict.get(label, 0)`. -/
def label_is_waffling (s : WState) (label : String) (limit : Nat) : Bool × WState :=
  let memo := match s.waffled with
    | some m => m
    | none => waffleCounts s.history
  (decide (limit ≤ ((memo.lookup label).getD 0)), WState.mk s.history (some memo))

/-- `merge_history` at the object level: the history list is replaced,
the `_waffled_labels` memo is left untouched. -/
def merge_history_w (s : WState) (oldhistory : List Record) : WState :=
  WState.mk (merge_history s.history oldhistory) s.waffled

/-- `os.path.join` for the relative components the constructor joins. -/
def pathJoin (a b : String) : String := a ++ "/" ++ b

/-- The cache-file path computed by `__init__` (lines 37-65): four join
shapes selected by substring tests on the caller-supplied `cachedir`. -/
def cachefile_path (cachedir repo_path : String) (number : Nat) : String :=
  if !(containsStr cachedir repo_path) && !(containsStr cachedir "issues") then
    pathJoin (pathJoin (pathJoin (pathJoin cachedir repo_path) "issues")
      (toString number)) "history.pickle"
  else if !(containsStr cachedir repo_path) then
    pathJoin (pathJoin (pathJoin (pathJoin cachedir repo_path) "issues")
      (toString number)) "history.pickle"
  else if !(containsStr cachedir "issues") then
    pathJoin (pathJoin (pathJoin cachedir "issues") (toString number)) "history.pickle"
  else
    pathJoin (pathJoin cachedir (toString number)) "history.pickle"

/-- `self.cachedir = os.path.dirname(self.cachefile)`: the same joins
without the trailing `history.pickle` component. -/
def cachedir_path (cachedir repo_path : String) (number : Nat) : String :=
  if !(containsStr cachedir repo_path) && !(containsStr cachedir "issues") then
    pathJoin (pathJoin (pathJoin cachedir repo_path) "issues") (toString number)
  else if !(containsStr cachedir repo_path) then
    pathJoin (pathJoin (pathJoin cachedir repo_path) "issues") (toString number)
  else if !(containsStr cachedir "issues") then
    pathJoin (pathJoin cachedir "issues") (toString number)
  else
    pathJoin cachedir (toString number)

/-- The path-validation step of `__init__` (lines 67-74): compute the
cache directory and raise `Exception('')` when `'issues'` does not occur
in it; otherwise construction proceeds with that directory. -/
def init_cache_path (cachedir repo_path : String) (number : Nat) :
    Except String String :=
  let d := cachedir_path cachedir repo_path number
  if containsStr d "issues" then Except.ok d else Except.error ""

/-- `ShippableHistory.info_for_last_ci_verified_run`, first loop: index of
the last `labeled`/`ci_verified` record, if any. -/
def find_verified_idx_go (i : Nat) (acc : Option Nat) : List Record → Option Nat
  | [] => acc
  | x :: rest =>
      if x.event == "labeled" && x.label == some "ci_verified" then
        find_verified_idx_go (i + 1) (some i) rest
      else find_verified_idx_go (i + 1) acc rest

/-- Index of the last `labeled`/`ci_verified` record in the history. -/
def find_verified_idx (h : List Record) : Option Nat := find_verified_idx_go 0 none h

/-- Second loop of `info_for_last_ci_verified_run`: the last `ci_run`
record at or before the verified record's timestamp.  When a `ci_run`
record exists but no `ci_verified` label was found, the code evaluates
`self.history[None]` and dies with a `TypeError`. -/
def find_run_idx_go (vts : Option TS) (i : Nat) (acc : Option Nat) :
    List Record → Except String (Option Nat)
  | [] => Except.ok acc
  | x :: rest =>
      if x.event == "ci_run" then
        match vts with
        | none => Except.error "TypeError"
        | some t =>
            if x.created_at.time ≤ t.time then
              find_run_idx_go vts (i + 1) (some i) rest
            else find_run_idx_go vts (i + 1) acc rest
      else find_run_idx_go vts (i + 1) acc rest

/-- `ShippableHistory.info_for_last_ci_verified_run`: correlate the most
recent `ci_verified` label to the last `ci_run` at or before it; the
truthiness test `if run_idx:` also treats a match at index 0 as no match. -/
def info_for_last_ci_verified_run (h : List Record) :
    Except String (Option Record) :=
  let vIdx := find_verified_idx h
  let vts := vIdx.bind fun v => (h.get? v).map fun r => r.created_at
  match find_run_idx_go vts 0 none h with
  | Except.error e => Except.error e
  | Except.ok none => Except.ok none
  | Except.ok (some i) => if i == 0 then Except.ok none else Except.ok (h.get? i)

theorem mem_sortByCreated {r : Record} {l : List Record} :
    r ∈ sortByCreated l ↔ r ∈ l :=
  (List.perm_insertionSort recLE l).mem_iff

theorem fix_record_aware (r : Record) : (fix_record r).created_at.aware = true := by
  unfold fix_record
  split
  · assumption
  · rfl

theorem fix_record_of_aware {r : Record} (h : r.created_at.aware = true) :
    fix_record r = r := by
  unfold fix_record
  simp [h]

theorem fix_record_idem (r : Record) : fix_record (fix_record r) = fix_record r :=
  fix_record_of_aware (fix_record_aware r)

theorem aware_of_mem_fix {r : Record} {h : List Record}
    (hm : r ∈ fix_history_tz h) : r.created_at.aware = true := by
  rcases List.mem_map.mp hm with ⟨x, _, rfl⟩
  exact fix_record_aware x

theorem fix_history_tz_idem (h : List Record) :
    fix_history_tz (fix_history_tz h) = fix_history_tz h := by
  unfold fix_history_tz
  rw [List.map_map]
  exact List.map_congr_left fun x _ => fix_record_idem x

theorem sorted_sortByCreated (l : List Record) :
    List.Sorted recLE (sortByCreated l) :=
  List.sorted_insertionSort recLE l

theorem adjacent_sortByCreated (l : List Record) (i : Nat)
    (hi : i + 1 < (sortByCreated l).length) :
    ((sortByCreated l).get ⟨i, Nat.lt_of_succ_lt hi⟩).created_at.time
      ≤ ((sortByCreated l).get ⟨i + 1, hi⟩).created_at.time :=
  (sorted_sortByCreated l).rel_get_of_lt (Fin.mk_lt_mk.mpr (Nat.lt_succ_self i))

theorem merge_reviews_ok {h : List Record} {reviews : List RawReview}
    {out : List Record} (he : merge_reviews h reviews = Except.ok out) :
    ∃ hist, merge_reviews_go h reviews = Except.ok hist
      ∧ out = sortByCreated (fix_history_tz hist) := by
  unfold merge_reviews at he
  split at he
  · rename_i hist hgo
    exact ⟨hist, hgo, (Except.ok.inj he).symm⟩
  · exact absurd he (by simp)

/-- C1: with caching enabled, construction reuses the cached history
verbatim (and does not persist) iff the cache entry's `updated_at` is at
least the issue's current `updated_at`; a stale or absent cache entry
makes it rebuild from the sources and persist the new entry. -/
theorem cache_freshness_decision :
    (∀ t1 h t2 fresh,
        init_decision true (CacheState.entry t1 h) t2 fresh
            = InitResult.mk BuildSource.fromCache h false ↔ t2.time ≤ t1.time)
  ∧ (∀ t1 h t2 fresh, ¬ t2.time ≤ t1.time →
        init_decision true (CacheState.entry t1 h) t2 fresh
          = InitResult.mk BuildSource.rebuilt fresh true)
  ∧ (∀ t2 fresh, init_decision true CacheState.absent t2 fresh
          = InitResult.mk BuildSource.rebuilt fresh true) := by
  refine ⟨fun t1 h t2 fresh => ?_, fun t1 h t2 fresh hlt => ?_, fun t2 fresh => rfl⟩
  · unfold init_decision
    by_cases hle : t2.time ≤ t1.time <;> simp [hle]
  · unfold init_decision
    simp [hlt]

/-- C1 witness: a stale cache entry (`T1 = 1 < 2 = T2`) is rebuilt and
persisted. -/
theorem cache_freshness_decision_witness :
    init_decision true (CacheState.entry (TS.mk 1 true) []) (TS.mk 2 true) []
      = InitResult.mk BuildSource.rebuilt [] true :=
  cache_freshness_decision.2.1 (TS.mk 1 true) [] (TS.mk 2 true) [] (by decide)

/-- A record with a naive (tz-unaware) timestamp, as could sit in a
not-yet-fixed history handed to `merge_history`. -/
def naive_record : Record :=
  { event := "labeled", actor := some "alice", created_at := TS.mk 0 false,
    label := some "bug" }

/-- C2 counterexample: `merge_history` applies no timezone fix, so merging
a history that contains a naive-timestamped record leaves that record
naive — not every record is timezone-aware after this merge operation. -/
theorem merge_history_naive_tz_counterexample :
    ((merge_history [] [naive_record]).all fun r => r.created_at.aware) = false := by
  rfl

/-- C2 (amended): after construction, after `merge_commits`, and after a
successful `merge_reviews`, every record has a timezone-aware
`created_at`, and re-applying the timezone fix changes nothing;
`merge_history`, however, applies no timezone fix, so its output is
all-aware only when both input histories already are. -/
theorem tz_invariant_amended :
    (∀ u c t fresh ex r, r ∈ construct_history u c t fresh ex →
        r.created_at.aware = true)
  ∧ (∀ h commits r, r ∈ merge_commits h commits → r.created_at.aware = true)
  ∧ (∀ h reviews out r, merge_reviews h reviews = Except.ok out → r ∈ out →
        r.created_at.aware = true)
  ∧ (∀ h old r, (∀ x ∈ h, x.created_at.aware = true) →
        (∀ x ∈ old, x.created_at.aware = true) →
        r ∈ merge_history h old → r.created_at.aware = true)
  ∧ (∀ h, fix_history_tz (fix_history_tz h) = fix_history_tz h) := by
  refine ⟨fun u c t fresh ex r hr => ?_, fun h commits r hr => ?_,
    fun h reviews out r he hr => ?_, fun h old r hh hold hr => ?_,
    fix_history_tz_idem⟩
  · exact aware_of_mem_fix (mem_sortByCreated.mp hr)
  · exact aware_of_mem_fix (mem_sortByCreated.mp hr)
  · rcases merge_reviews_ok he with ⟨hist, _, rfl⟩
    exact aware_of_mem_fix (mem_sortByCreated.mp hr)
  · rcases List.mem_append.mp (mem_sortByCreated.mp hr) with hm | hm
    · exact hh r hm
    · exact hold r hm

/-- C2 witness: the amended `merge_history` clause at a concrete aware
singleton history. -/
theorem tz_invariant_amended_witness :
    (fix_record naive_record).created_at.aware = true :=
  tz_invariant_amended.2.2.2.1 [] [fix_record naive_record]
    (fix_record naive_record) (by decide) (by decide) (by decide)

/-- C3: after construction and after any merge operation the history is
ascending by `created_at`: every adjacent pair satisfies
`H[i].created_at <= H[i+1].created_at`. -/
theorem sort_invariant :
    (∀ u c t fresh ex i (hi : i + 1 < (construct_history u c t fresh ex).length),
        ((construct_history u c t fresh ex).get ⟨i, Nat.lt_of_succ_lt hi⟩).created_at.time
          ≤ ((construct_history u c t fresh ex).get ⟨i + 1, hi⟩).created_at.time)
  ∧ (∀ h commits i (hi : i + 1 < (merge_commits h commits).length),
        ((merge_commits h commits).get ⟨i, Nat.lt_of_succ_lt hi⟩).created_at.time
          ≤ ((merge_commits h commits).get ⟨i + 1, hi⟩).created_at.time)
  ∧ (∀ h reviews out, merge_reviews h reviews = Except.ok out →
        ∀ i (hi : i + 1 < out.length),
          (out.get ⟨i, Nat.lt_of_succ_lt hi⟩).created_at.time
            ≤ (out.get ⟨i + 1, hi⟩).created_at.time)
  ∧ (∀ h old i (hi : i + 1 < (merge_history h old).length),
        ((merge_history h old).get ⟨i, Nat.lt_of_succ_lt hi⟩).created_at.time
          ≤ ((merge_history h old).get ⟨i + 1, hi⟩).created_at.time) := by
  refine ⟨fun u c t fresh ex i hi => ?_, fun h commits i hi => ?_,
    fun h reviews out he i hi => ?_, fun h old i hi => ?_⟩
  · exact adjacent_sortByCreated _ i hi
  · exact adjacent_sortByCreated _ i hi
  · rcases merge_reviews_ok he with ⟨hist, _, rfl⟩
    exact adjacent_sortByCreated _ i hi
  · exact adjacent_sortByCreated _ i hi

/-- A concrete earlier record (instant 1). -/
def rec_t1 : Record :=
  { event := "commented", actor := some "alice", created_at := TS.mk 1 true,
    body := some "hi" }

/-- A concrete later record (instant 2). -/
def rec_t2 : Record :=
  { event := "labeled", actor := some "bob", created_at := TS.mk 2 true,
    label := some "bug" }

/-- C3 witness: merging an out-of-order history re-sorts; the two adjacent
records of the result are in ascending order. -/
theorem sort_invariant_witness :
    ((merge_history [rec_t2] [rec_t1]).get ⟨0, by decide⟩).created_at.time
      ≤ ((merge_history [rec_t2] [rec_t1]).get ⟨1, by decide⟩).created_at.time :=
  sort_invariant.2.2.2 [rec_t2] [rec_t1] 0 (by decide)

/-- C4: during a rebuild, a timeline event whose id is found in the cached
history contributes the cached record itself to the result (no field
re-derivation), while every comment and every well-formed reaction
contributes its fresh normalization regardless of the cache. -/
theorem cache_reuse_correctness :
    (∀ cache events comments reactions (e : RawEvent) (r : Record),
        e ∈ events → get_event_from_cache (Sum.inl e.id) cache = some r →
        r ∈ process cache events comments reactions)
  ∧ (∀ cache events comments reactions (c : RawComment), c ∈ comments →
        normalize_comment c ∈ process cache events comments reactions)
  ∧ (∀ cache events comments reactions (x : RawReaction) (r : Record),
        x ∈ reactions → normalize_reaction x = some r →
        r ∈ process cache events comments reactions) := by
  refine ⟨fun cache ev cs rs e r he hg => ?_, fun cache ev cs rs c hc => ?_,
    fun cache ev cs rs x r hx hr => ?_⟩
  · apply mem_sortByCreated.mpr
    apply List.mem_append.mpr
    left
    apply List.mem_append.mpr
    left
    have hpe : processed_event cache e = r := by
      unfold processed_event
      rw [hg]
    exact hpe ▸ List.mem_map_of_mem (processed_event cache) he
  · apply mem_sortByCreated.mpr
    apply List.mem_append.mpr
    left
    apply List.mem_append.mpr
    right
    exact List.mem_map_of_mem normalize_comment hc
  · apply mem_sortByCreated.mpr
    apply List.mem_append.mpr
    right
    exact List.mem_filterMap.mpr ⟨x, hx, hr⟩

/-- The cached form of timeline event id 5 (spec reuse test): what a prior
build derived for it. -/
def cached_labeled_record : Record :=
  { id := some (Sum.inl 5), event := "labeled", actor := some "a",
    created_at := TS.mk 3 true, label := some "bug" }

/-- A fresh raw source event with the cached id but drifted fields. -/
def drift_event : RawEvent :=
  { id := 5, actorLogin := some "zzz", event := "unlabeled",
    created_at := TS.mk 9 true, labelName := some "other", commit_id := none }

/-- A cache entry holding only the cached form of event id 5. -/
def c4_cache : CacheState :=
  CacheState.entry (TS.mk 3 true) [cached_labeled_record]

/-- C4 witness: rebuilding against the cache reuses the cached record for
the drifted source event — the cached fields win over re-derivation. -/
theorem cache_reuse_correctness_witness :
    cached_labeled_record ∈ process c4_cache [drift_event] [] [] :=
  cache_reuse_correctness.1 c4_cache [drift_event] [] [] drift_event
    cached_labeled_record (by decide) (by rfl)

/-- C5: `merge_reviews` maps each review state to exactly one of the four
review-event kinds, and any other state raises the fatal
`unknown review state` error instead of dropping or misclassifying. -/
theorem review_state_mapping :
    reviewEventKind "COMMENTED" = Except.ok "review_comment"
  ∧ reviewEventKind "CHANGES_REQUESTED" = Except.ok "review_changes_requested"
  ∧ reviewEventKind "APPROVED" = Except.ok "review_approved"
  ∧ reviewEventKind "DISMISSED" = Except.ok "review_dismissed"
  ∧ (∀ h rv, rv.state ≠ "COMMENTED" → rv.state ≠ "CHANGES_REQUESTED" →
        rv.state ≠ "APPROVED" → rv.state ≠ "DISMISSED" →
        ∀ rest, merge_reviews h (rv :: rest) = Except.error "unknown review state") := by
  refine ⟨rfl, rfl, rfl, rfl, fun h rv h1 h2 h3 h4 rest => ?_⟩
  unfold merge_reviews merge_reviews_go
  simp [reviewEventKind, h1, h2, h3, h4]

/-- A review in the (unmapped) `PENDING` state. -/
def pending_review : RawReview :=
  { id := 1, userLogin := "u", submittedAt := 0, commit_id := "c",
    state := "PENDING" }

/-- C5 witness: merging a `PENDING` review is the fatal error. -/
theorem review_state_mapping_witness :
    merge_reviews [] [pending_review] = Except.error "unknown review state" :=
  review_state_mapping.2.2.2.2 [] pending_review (by decide) (by decide)
    (by decide) (by decide) []

theorem lookup_map_counts (labs : List String) (f : String → Nat) (l : String) :
    (labs.map fun a => (a, f a)).lookup l
      = if l ∈ labs then some (f l) else none := by
  induction labs with
  | nil => rfl
  | cons a t ih =>
    simp only [List.map_cons, List.lookup_cons]
    by_cases h : l = a
    · subst h
      simp
    · have hb : (l == a) = false := beq_eq_false_iff_ne.mpr h
      simp [hb, ih, h]

theorem lookup_waffleCounts (h : List Record) (l : String) :
    ((waffleCounts h).lookup l).getD 0 = countLabel h l := by
  unfold waffleCounts
  rw [lookup_map_counts]
  by_cases hm : l ∈ (labelsOf h).dedup
  · simp [hm]
  · have hnm : l ∉ labelsOf h := fun hc => hm (List.mem_dedup.mpr hc)
    have hz : countLabel h l = 0 := by
      unfold countLabel
      rw [List.length_eq_zero, List.filter_eq_nil_iff]
      intro a ha hpa
      exact hnm (by rwa [eq_of_beq hpa] at ha)
    simp [hm, hz]

/-- A history of `n` alternating apply/remove transitions of the label
`needs_info`, one per instant. -/
def waffle_hist (n : Nat) : List Record :=
  (List.range n).map fun i =>
    { event := if i % 2 == 0 then "labeled" else "unlabeled",
      actor := some "bob", created_at := TS.mk (Int.ofNat i) true,
      label := some "needs_info" }

/-- C6: on a fresh memo, `label_is_waffling` answers whether the total
number of labeled-plus-unlabeled transitions of the label reaches the
limit, and stores the census in the memo; 21 transitions with limit 20
waffle, 19 do not. -/
theorem waffling_count :
    (∀ h l limit,
        (label_is_waffling (WState.mk h none) l limit).1
            = decide (limit ≤ countLabel h l)
      ∧ (label_is_waffling (WState.mk h none) l limit).2
            = WState.mk h (some (waffleCounts h)))
  ∧ (label_is_waffling (WState.mk (waffle_hist 21) none) "needs_info" 20).1 = true
  ∧ (label_is_waffling (WState.mk (waffle_hist 19) none) "needs_info" 20).1 = false := by
  refine ⟨fun h l limit => ⟨?_, rfl⟩, by decide, by decide⟩
  show decide (limit ≤ ((waffleCounts h).lookup l).getD 0)
      = decide (limit ≤ countLabel h l)
  exact decide_eq_decide.mpr (by rw [lookup_waffleCounts])

/-- A later removal of the label `bug` (instant 3). -/
def rec_t3 : Record :=
  { event := "unlabeled", actor := some "bob", created_at := TS.mk 3 true,
    label := some "bug" }

/-- C7: the code does NOT invalidate the `_waffled_labels` memo on merge.
Starting from an empty history, the first `label_is_waffling` call
populates the memo; after `merge_history` adds two `bug` transitions, a
second call still answers from the stale memo (`false`) although the
merged history holds enough transitions (`2 ≤ count`) for a recomputation
to answer `true`. -/
theorem stale_waffle_memo :
    (label_is_waffling
        (merge_history_w (label_is_waffling (WState.mk [] none) "bug" 2).2
          [rec_t2, rec_t3]) "bug" 2).1 = false
  ∧ decide (2 ≤ countLabel
        (merge_history_w (label_is_waffling (WState.mk [] none) "bug" 2).2
          [rec_t2, rec_t3]).history "bug") = true := by
  exact ⟨rfl, rfl⟩

/-- A comment record as `process` normalizes it. -/
def comment_rec (i : Option EventId) (u : String) (t : TS) (b : String) : Record :=
  { id := i, event := "commented", actor := some u, created_at := t,
    body := some b }

/-- A labeled record as `process` normalizes it. -/
def labeled_rec (i : Option EventId) (u : String) (t : TS) (l : String) : Record :=
  { id := i, event := "labeled", actor := some u, created_at := t,
    label := some l }

/-- An unlabeled record as `process` normalizes it. -/
def unlabeled_rec (i : Option EventId) (u : String) (t : TS) (l : String) : Record :=
  { id := i, event := "unlabeled", actor := some u, created_at := t,
    label := some l }

theorem find_single (r : Record) (n u : String) (m : Nat) :
    find_events_by_actor [r] (some n) u m
      = if r.event = n ∧ r.actor = some u then [r].take m else [] := by
  unfold find_events_by_actor
  by_cases he : r.event = n
  · by_cases ha : r.actor = some u
    · simp [he, ha]
    · simp [he, ha]
  · simp [he]

theorem get_commands_single (r : Record) (u : String) (keys botnames : List String)
    (uselabels : Bool) (hu : r.actor = some u) :
    get_commands [r] u keys uselabels botnames
      = get_commands_step keys uselabels botnames r := by
  unfold get_commands
  rw [find_single, find_single, find_single]
  by_cases h1 : r.event = "commented"
  · have h2 : ¬ r.event = "labeled" := by rw [h1]; decide
    have h3 : ¬ r.event = "unlabeled" := by rw [h1]; decide
    simp [h1, h2, h3, hu, sortByCreated, List.insertionSort, List.orderedInsert]
  · by_cases h2 : r.event = "labeled"
    · have h3 : ¬ r.event = "unlabeled" := by rw [h2]; decide
      simp [h1, h2, h3, hu, sortByCreated, List.insertionSort, List.orderedInsert]
    · by_cases h3 : r.event = "unlabeled"
      · simp [h1, h2, h3, hu, sortByCreated, List.insertionSort, List.orderedInsert]
      · have hstep : get_commands_step keys uselabels botnames r = [] := by
          unfold get_commands_step
          cases hb : actorIn r.actor botnames with
          | true => simp [hb]
          | false =>
            simp [hb, h1, h2, h3]
        simp [h1, h2, h3, hstep, sortByCreated, List.insertionSort]

theorem step_comment_mem (i : Option EventId) (u : String) (t : TS) (b : String)
    (keys botnames : List String) (hbot : actorIn (some u) botnames = false)
    (y : String) :
    y ∈ get_commands_step keys true botnames (comment_rec i u t b)
      ↔ y ∈ keys ∧ strStarts b "_From @" = false
        ∧ containsStr b y = true ∧ containsStr b ("!" ++ y) = false := by
  have hstep : get_commands_step keys true botnames (comment_rec i u t b)
      = keys.filterMap fun a =>
          if strStarts b "_From @" then none
          else if containsStr b a && !(containsStr b ("!" ++ a)) then some a
          else none := by
    unfold get_commands_step comment_rec
    simp [hbot]
  rw [hstep, List.mem_filterMap]
  constructor
  · rintro ⟨a, ha, hfa⟩
    by_cases hs : strStarts b "_From @" = true
    · rw [if_pos hs] at hfa
      cases hfa
    · have hs' : strStarts b "_From @" = false := Bool.eq_false_iff.mpr hs
      rw [if_neg hs] at hfa
      by_cases hc : (containsStr b a && !(containsStr b ("!" ++ a))) = true
      · rw [if_pos hc] at hfa
        have hay : a = y := Option.some.inj hfa
        subst hay
        have hcc : containsStr b a = true ∧ containsStr b ("!" ++ a) = false := by
          simpa using hc
        exact ⟨ha, hs', hcc.1, hcc.2⟩
      · rw [if_neg hc] at hfa
        cases hfa
  · rintro ⟨hy, hs, hc1, hc2⟩
    refine ⟨y, hy, ?_⟩
    rw [if_neg (ne_true_of_eq_false hs), if_pos (by rw [hc1, hc2]; rfl)]

theorem step_label (i : Option EventId) (u : String) (t : TS) (l : String)
    (keys botnames : List String) (hbot : actorIn (some u) botnames = false)
    (hk : l ∈ keys) :
    get_commands_step keys true botnames (labeled_rec i u t l) = [l]
  ∧ get_commands_step keys true botnames (unlabeled_rec i u t l) = ["!" ++ l] := by
  have hc : keys.contains l = true := List.elem_eq_true_of_mem hk
  constructor
  · unfold get_commands_step labeled_rec
    simp [hbot, hc, hk]
  · unfold get_commands_step unlabeled_rec
    simp [hbot, hc, hk]

theorem step_bot (r : Record) (keys botnames : List String) (uselabels : Bool)
    (hbot : actorIn r.actor botnames = true) :
    get_commands_step keys uselabels botnames r = [] := by
  unfold get_commands_step
  simp [hbot]

/-- C8: a command key is extracted from a comment iff the key occurs in
the body, its negation `!key` does not, and the body does not start with
`_From @` (in particular `needs_info please` yields `needs_info` and
`!needs_info` does not); a labeled/unlabeled event whose label is a key
contributes the label (bang-prefixed for removals); a record whose actor
is in the bot-exclusion list contributes nothing. -/
theorem command_extraction :
    (∀ i u t b keys botnames y, actorIn (some u) botnames = false →
        (y ∈ get_commands [comment_rec i u t b] u keys true botnames
          ↔ y ∈ keys ∧ strStarts b "_From @" = false
            ∧ containsStr b y = true ∧ containsStr b ("!" ++ y) = false))
  ∧ (∀ i u t l keys botnames, actorIn (some u) botnames = false → l ∈ keys →
        get_commands [labeled_rec i u t l] u keys true botnames = [l]
      ∧ get_commands [unlabeled_rec i u t l] u keys true botnames = ["!" ++ l])
  ∧ (∀ r u keys uselabels botnames, r.actor = some u →
        actorIn (some u) botnames = true →
        get_commands [r] u keys uselabels botnames = [])
  ∧ "needs_info" ∈ get_commands
        [comment_rec none "alice" (TS.mk 1 true) "needs_info please"]
        "alice" ["needs_info"] true []
  ∧ "needs_info" ∉ get_commands
        [comment_rec none "alice" (TS.mk 1 true) "!needs_info"]
        "alice" ["needs_info"] true [] := by
  refine ⟨fun i u t b keys botnames y hbot => ?_,
    fun i u t l keys botnames hbot hk => ?_,
    fun r u keys uselabels botnames hu hbot => ?_, by decide, by decide⟩
  · rw [get_commands_single _ _ _ _ _ rfl]
    exact step_comment_mem i u t b keys botnames hbot y
  · rw [get_commands_single _ _ _ _ _ rfl, get_commands_single _ _ _ _ _ rfl]
    exact step_label i u t l keys botnames hbot hk
  · rw [get_commands_single _ _ _ _ _ hu]
    apply step_bot
    rw [hu]
    exact hbot

/-- C8 witness: a label event whose label is a command key yields that
command for the labeling actor. -/
theorem command_extraction_witness :
    get_commands [labeled_rec none "bob" (TS.mk 2 true) "needs_info"] "bob"
      ["needs_info"] true [] = ["needs_info"] :=
  (command_extraction.2.1 none "bob" (TS.mk 2 true) "needs_info" ["needs_info"]
    [] (by decide) (by decide)).1

theorem isPre_refl (p : List Char) : isPre p p = true := by
  induction p with
  | nil => rfl
  | cons a as ih => simp [isPre, ih]

theorem isPre_extend (p : List Char) : ∀ l l2, isPre p l = true →
    isPre p (l ++ l2) = true := by
  induction p with
  | nil => intro l l2 _; rfl
  | cons a as ih =>
    intro l l2 h
    cases l with
    | nil => exact absurd h (by simp [isPre])
    | cons b bs =>
      rw [List.cons_append]
      have hh : (a == b) = true ∧ isPre as bs = true := by simpa [isPre] using h
      simp [isPre, hh.1, ih bs l2 hh.2]

theorem isPre_self_append (p t : List Char) : isPre p (p ++ t) = true :=
  isPre_extend p p t (isPre_refl p)

theorem containsSub_nil_pat (l : List Char) : containsSub [] l = true := by
  cases l with
  | nil => rfl
  | cons c t => simp [containsSub, isPre]

theorem containsSub_here (p t : List Char) : containsSub p (p ++ t) = true := by
  cases p with
  | nil => exact containsSub_nil_pat t
  | cons a as =>
    have hpre := isPre_self_append (a :: as) t
    rw [List.cons_append] at hpre ⊢
    simp [containsSub, hpre]

theorem containsSub_prepend (p : List Char) : ∀ l1 l2, containsSub p l2 = true →
    containsSub p (l1 ++ l2) = true := by
  intro l1
  induction l1 with
  | nil => intro l2 h; simpa using h
  | cons c t ih => intro l2 h; simp [containsSub, ih l2 h]

theorem containsSub_append_left (p : List Char) : ∀ l1 l2, containsSub p l1 = true →
    containsSub p (l1 ++ l2) = true := by
  intro l1
  induction l1 with
  | nil =>
    intro l2 h
    have hp : p = [] := by
      cases p with
      | nil => rfl
      | cons a as => simp [containsSub] at h
    subst hp
    exact containsSub_nil_pat l2
  | cons c t ih =>
    intro l2 h
    rw [List.cons_append]
    have h2 : isPre p (c :: t) = true ∨ containsSub p t = true := by
      simpa [containsSub] using h
    rcases h2 with h1 | h1
    · have := isPre_extend p (c :: t) l2 h1
      rw [List.cons_append] at this
      simp [containsSub, this]
    · simp [containsSub, ih l2 h1]

theorem cachedir_path_has_issues (cd rp : String) (n : Nat) :
    containsStr (cachedir_path cd rp n) "issues" = true := by
  unfold cachedir_path
  split
  · unfold containsStr pathJoin
    simp only [String.data_append, List.append_assoc]
    exact containsSub_prepend _ _ _ (containsSub_prepend _ _ _
      (containsSub_prepend _ _ _ (containsSub_prepend _ _ _
        (containsSub_here _ _))))
  · split
    · unfold containsStr pathJoin
      simp only [String.data_append, List.append_assoc]
      exact containsSub_prepend _ _ _ (containsSub_prepend _ _ _
        (containsSub_prepend _ _ _ (containsSub_prepend _ _ _
          (containsSub_here _ _))))
    · split
      · unfold containsStr pathJoin
        simp only [String.data_append, List.append_assoc]
        exact containsSub_prepend _ _ _ (containsSub_prepend _ _ _
          (containsSub_here _ _))
      · rename_i hc1 hc2
        have hcd : containsStr cd "issues" = true := by
          simpa using hc2
        unfold containsStr pathJoin
        simp only [String.data_append, List.append_assoc]
        exact containsSub_append_left _ _ _ hcd

/-- C9 counterexample: an ambiguous cache root — it already contains both
the repository path and the `issues` segment — does NOT fail construction:
the constructor silently picks the shortest join and returns a path. -/
theorem ambiguous_cachedir_counterexample :
    init_cache_path "/cache/ansible.ansible/issues" "ansible.ansible" 123
      = Except.ok "/cache/ansible.ansible/issues/123" := by
  rfl

/-- C9 (amended): construction never fails on the cache path, ambiguous
root or not: the constructor selects one of four join shapes (omitting
the repository path and/or the `issues` segment when they already occur
as substrings of the root) and the fatal `issues`-substring check on the
resulting directory always passes. -/
theorem cache_path_never_fails :
    ∀ cachedir repo_path number,
      init_cache_path cachedir repo_path number
        = Except.ok (cachedir_path cachedir repo_path number) := by
  intro cd rp n
  unfold init_cache_path
  rw [if_pos (cachedir_path_has_issues cd rp n)]

/-- A joined `ci_run` record (instant 0) as `join_history` builds them. -/
def ci_run_rec : Record :=
  { event := "ci_run", actor := some "ci", created_at := TS.mk 0 true,
    state := some "failure", run_id := some "r1", status_id := some 7,
    sha := some "abc" }

/-- The `ci_verified` label application (instant 1). -/
def verified_rec : Record :=
  { event := "labeled", actor := some "bob", created_at := TS.mk 1 true,
    label := some "ci_verified" }

/-- C10: when a `ci_verified` labeled event exists and the last `ci_run`
at or before it sits at index 0 of the joined history, the helper returns
no correlated run — the truthiness test `if run_idx:` treats a match at
index 0 like no match — even though record 0 is a qualifying run. -/
theorem ci_verified_run_idx_zero :
    (∀ h v, find_verified_idx h = some v →
        find_run_idx_go ((h.get? v).map fun r => r.created_at) 0 none h
            = Except.ok (some 0) →
        info_for_last_ci_verified_run h = Except.ok none)
  ∧ info_for_last_ci_verified_run [ci_run_rec, verified_rec] = Except.ok none
  ∧ ci_run_rec.event = "ci_run"
  ∧ ci_run_rec.created_at.time ≤ verified_rec.created_at.time := by
  refine ⟨fun h v hv hrun => ?_, by rfl, by decide, by decide⟩
  unfold info_for_last_ci_verified_run
  rw [hv]
  simp only [Option.some_bind]
  rw [hrun]
  rfl

/-- C10 witness: on the two-record history the qualifying run is at index
0, so the correlation comes back empty. -/
theorem ci_verified_run_idx_zero_witness :
    info_for_last_ci_verified_run [ci_run_rec, verified_rec] = Except.ok none :=
  ci_verified_run_idx_zero.1 [ci_run_rec, verified_rec] 1 (by rfl) (by rfl)
